import Mathlib

/-!
Shallow embedding of the `zipwalk` Go package (github.com/mzimmerman/zipwalk):
a filesystem walker that descends into zip archives (`Walk` / `walkFuncRecursive`)
and a nested-path resolver (`Stat` / `statRecursive`).

Modelling conventions:
* Go `error` values become `Option GoErr` (`none` = `nil`).
* The zip library (`archive/zip`, `compress/flate`) is external; its observable
  outcomes are modelled by the `FileData` / `EList` / `EntryRes` datatypes: a
  byte string is represented by the outcome tree the library produces on it.
* `strings.Contains(err.Error(), "...")` checks on library error messages are
  modelled by predicates over disjoint message classes (`Msg`); `fmt.Errorf`
  with `%v` embeds the inner message, hence the predicates recurse through
  `GoErr.wrap`.
* The sequence of visitor-callback invocations is an observable: the walker
  functions return the list of `Visit`s performed together with the Go return
  value.
* Paths are ASCII strings; Go byte indices coincide with character indices.
-/

namespace Zipwalk

/-- Message classes of errors produced by the Go standard library, as
distinguished by the `strings.Contains` checks in `zipwalk.go`.  The classes
are pairwise disjoint as substring-matched message families. -/
inductive Msg where
  | notValidZip      -- "zip: not a valid zip file"
  | flateCorrupt     -- "flate: corrupt input before offset"
  | unexpectedEOF    -- a message containing "EOF"
  | zipUnsupported   -- "zip: unsupported ..."
  | other (n : Nat)  -- any other library message, containing none of the above
deriving DecidableEq

/-- Go error values as they occur in `zipwalk.go`.  `wrap s e` models
`fmt.Errorf("<context #s> ... %v", e)` (a fresh error value embedding `e`'s
message); `user n` models an arbitrary error returned by the visitor
callback; `skipDir`/`skipZip` are the package's sentinel values, compared by
identity in Go and by constructor here. -/
inductive GoErr where
  | skipDir
  | skipZip
  | user (n : Nat)
  | lib (m : Msg)
  | notExist                     -- os.ErrNotExist
  | openZipFailed (path : String) -- fmt.Errorf("error opening zip file - %s", path)
  | wrap (site : Nat) (inner : GoErr)
deriving DecidableEq

/-- Does the error's message contain "zip: not a valid zip file"?
(`%v`-wrapping preserves the substring.) -/
def containsNotValidZip : GoErr → Bool
  | .lib .notValidZip => true
  | .wrap _ e => containsNotValidZip e
  | _ => false

/-- Does the error's message contain "flate: corrupt input before offset"? -/
def containsFlateCorrupt : GoErr → Bool
  | .lib .flateCorrupt => true
  | .wrap _ e => containsFlateCorrupt e
  | _ => false

/-- Does the error's message contain "EOF"? -/
def containsEOF : GoErr → Bool
  | .lib .unexpectedEOF => true
  | .wrap _ e => containsEOF e
  | _ => false

/-- Does the error's message contain "zip: unsupported"? -/
def containsZipUnsupported : GoErr → Bool
  | .lib .zipUnsupported => true
  | .wrap _ e => containsZipUnsupported e
  | _ => false

/-- `Wraps w e`: `w` is `e` under finitely many `fmt.Errorf` wrappings. -/
inductive Wraps : GoErr → GoErr → Prop where
  | refl (e : GoErr) : Wraps e e
  | step (s : Nat) (w e : GoErr) : Wraps w e → Wraps (.wrap s w) e

/-! ### Path helpers (`path/filepath` on Linux, slash-separated) -/

/-- Byte-slice `s[:n]` of an ASCII Go string. -/
def strTake (s : String) (n : Nat) : String := String.mk (s.toList.take n)

/-- Byte-slice `s[n:]` of an ASCII Go string. -/
def strDrop (s : String) (n : Nat) : String := String.mk (s.toList.drop n)

/-- Does the character list start with `.zip/` after per-character
lowercasing (the effect of `strings.ToLower` before `strings.Index`)? -/
def markerAt : List Char → Bool
  | a :: b :: c :: d :: e :: _ =>
      a.toLower = '.' && b.toLower = 'z' && c.toLower = 'i' &&
      d.toLower = 'p' && e.toLower = '/'
  | _ => false

/-- First index at which `.zip/` occurs (case-insensitively). -/
def findMarkerAux : List Char → Option Nat
  | [] => none
  | c :: rest =>
      if markerAt (c :: rest) then some 0
      else (findMarkerAux rest).map (· + 1)

/-- `strings.Index(strings.ToLower(path), ".zip/")` with `none` for `-1`. -/
def findZipMarker (s : String) : Option Nat := findMarkerAux s.toList

/-- Split a character list at every `/` (the semantics of
`strings.Split(s, "/")`); the accumulator holds the current segment
reversed. -/
def splitSlash : List Char → List Char → List (List Char)
  | [], cur => [cur.reverse]
  | c :: rest, cur =>
      if c = '/' then cur.reverse :: splitSlash rest []
      else splitSlash rest (c :: cur)

/-- One step of `path.Clean`'s element processing: fold a segment onto the
stack of output segments (held in reverse). -/
def cleanStep (rooted : Bool) (acc : List (List Char)) (seg : List Char) : List (List Char) :=
  if seg = [] ∨ seg = ['.'] then acc
  else if seg = ['.', '.'] then
    match acc with
    | [] => if rooted then [] else [['.', '.']]
    | top :: rest => if top = ['.', '.'] then seg :: acc else rest
  else seg :: acc

/-- Join segments with `/` separators. -/
def joinSegs : List (List Char) → List Char
  | [] => []
  | [s] => s
  | s :: rest => s ++ '/' :: joinSegs rest

/-- Go `path.Clean` (equal to `filepath.Clean` on Linux, where
`filepath.ToSlash` is the identity), on character lists. -/
def cleanPathL (l : List Char) : List Char :=
  match l with
  | [] => ['.']
  | c :: _ =>
    let rooted := c = '/'
    let out := ((splitSlash l []).foldl (cleanStep rooted) []).reverse
    if rooted then '/' :: joinSegs out
    else if out = [] then ['.'] else joinSegs out

/-- Go `filepath.Clean` composed with `filepath.ToSlash` (the identity on
Linux). -/
def cleanPath (s : String) : String := String.mk (cleanPathL s.toList)

/-- Go `filepath.Join(a, b)` on Linux: joins the non-empty elements with `/`
and cleans the result; the join of two empty strings is empty. -/
def joinPath (a b : String) : String :=
  if a = "" then (if b = "" then "" else cleanPath b)
  else if b = "" then cleanPath a
  else cleanPath (a ++ "/" ++ b)

/-- Helper for `extOf`: scans the reversed character list, accumulating the
characters after the current position; stops at a path separator. -/
def extFromRev : List Char → List Char → Option (List Char)
  | [], _ => none
  | c :: rest, acc =>
      if c = '/' then none
      else if c = '.' then some (c :: acc)
      else extFromRev rest (c :: acc)

/-- Go `filepath.Ext`: the suffix of the final path element beginning at its
final dot, or `""` when the final element has no dot. -/
def extOf (s : String) : String :=
  match extFromRev s.toList.reverse [] with
  | none => ""
  | some l => String.mk l

/-- `strings.ToLower`, restricted to its per-character action (exact for
ASCII strings). -/
def lowerStr (s : String) : String := String.mk (s.toList.map Char.toLower)

/-- The check `strings.ToLower(filepath.Ext(name)) == ".zip"`. -/
def isZipName (s : String) : Bool := lowerStr (extOf s) = ".zip"

/-! ### Data model: file metadata and zip contents -/

/-- The projection of an `os.FileInfo` used by the package: `Name()`,
`Size()`, `ModTime()` (as an abstract integer instant) and `IsDir()`. -/
structure NodeInfo where
  name : String
  size : Int
  modTime : Int
  isDir : Bool
deriving DecidableEq

/-- `NewZipFileInfo lm info` embeds `info` and overrides only `ModTime()`
with `lm` (the `ZipFileInfo` struct of `zipwalk.go`). -/
def NewZipFileInfo (lm : Int) (info : NodeInfo) : NodeInfo :=
  { info with modTime := lm }

mutual

/-- The contents of a byte string, as observed through `zip.NewReader`:
either the decode fails with some library error, or it yields the ordered
entry list of the archive. -/
inductive FileData where
  | badZip : GoErr → FileData
  | zip : EList → FileData
deriving DecidableEq

/-- The ordered entry list of a decoded archive (`zr.File`).  Each entry
carries its stored full name `f.Name`, its `f.FileInfo()`, and the outcome
of opening and reading it. -/
inductive EList where
  | nil : EList
  | cons : String → NodeInfo → EntryRes → EList → EList
deriving DecidableEq

/-- Outcome of `f.Open()` followed by `ioutil.ReadAll`: the open fails, the
read fails, or the full decompressed contents are produced. -/
inductive EntryRes where
  | openErr : GoErr → EntryRes
  | readErr : GoErr → EntryRes
  | content : FileData → EntryRes
deriving DecidableEq

end

/-- One invocation of the visitor callback: the arguments `walkFn` was
called with (`reader = none` models a `nil` reader). -/
structure Visit where
  path : String
  info : NodeInfo
  reader : Option FileData
  errArg : Option GoErr
deriving DecidableEq

/-- The visitor callback type (`WalkFunc`), as a pure function of its
arguments. -/
def WalkFn : Type := String → NodeInfo → Option FileData → Option GoErr → Option GoErr

/-- Record one visitor invocation and its result. -/
def callFn (walkFn : WalkFn) (p : String) (i : NodeInfo) (r : Option FileData)
    (e : Option GoErr) : List Visit × Option GoErr :=
  ([⟨p, i, r, e⟩], walkFn p i r e)

/-! ### The recursive archive walker (`walkFuncRecursive`) -/

mutual

/-- `walkFuncRecursive` of `zipwalk.go`: visit the archive node itself, then
decode it and iterate its entries.  Returns the visitor invocations
performed and the Go return value.  Wrap sites: 0 = "received error when
called", 1 = "received error from walkFn", 2 = "error reading file". -/
def walkFuncRecursive (filePath : String) (info : NodeInfo) (content : FileData)
    (walkFn : WalkFn) (err : Option GoErr) : List Visit × Option GoErr :=
  match err with
  | some e => ([], some (.wrap 0 e))
  | none =>
    let tr0 : List Visit := [⟨filePath, info, some content, none⟩]
    match walkFn filePath info (some content) none with
    | some .skipZip => (tr0, none)
    | some e => (tr0, some (.wrap 1 e))
    | none =>
      match content with
      | .badZip e =>
          if containsNotValidZip e then (tr0, none)   -- logged, not fatal
          else (tr0, some (.wrap 2 e))
      | .zip es =>
          let (tr1, r) := walkEntries filePath info es walkFn
          (tr0 ++ tr1, r)
termination_by structural content

/-- The `for _, f := range zr.File` loop of `walkFuncRecursive`.  Wrap
sites: 3 = "Error opening file", 4 = "Error reading file", 5 = "Received
error from walkFuncRecursive", 6 = "Received error from walkFn". -/
def walkEntries (filePath : String) (info : NodeInfo) (es : EList)
    (walkFn : WalkFn) : List Visit × Option GoErr :=
  match es with
  | .nil => ([], none)
  | .cons name finfo eres rest =>
    match eres with
    | .openErr e =>
        if containsZipUnsupported e then ([], none)   -- "likely corrupted": return nil
        else ([], some (.wrap 3 e))
    | .readErr e =>
        if containsFlateCorrupt e then walkEntries filePath info rest walkFn
        else if containsEOF e then walkEntries filePath info rest walkFn
        else ([], some (.wrap 4 e))
    | .content d =>
        if isZipName name then
          match walkFuncRecursive (joinPath filePath name)
              (NewZipFileInfo info.modTime finfo) d walkFn none with
          | (tr, some e) => (tr, some (.wrap 5 e))
          | (tr, none) =>
              let (tr2, r) := walkEntries filePath info rest walkFn
              (tr ++ tr2, r)
        else
          match walkFn (joinPath filePath name) (NewZipFileInfo info.modTime finfo)
              (some d) none with
          | some e =>
              ([⟨joinPath filePath name, NewZipFileInfo info.modTime finfo, some d, none⟩],
               some (.wrap 6 e))
          | none =>
              let (tr2, r) := walkEntries filePath info rest walkFn
              (⟨joinPath filePath name, NewZipFileInfo info.modTime finfo, some d, none⟩ :: tr2, r)
termination_by structural es

end

/-! ### The real filesystem and `Walk` -/

mutual

/-- A real filesystem subtree.  A regular file carries its name, size,
modification time, the outcome of `os.Open` (`some e` = failure), and its
contents.  Directory children are listed in lexical order (the order
`filepath.Walk` produces). -/
inductive FSNode where
  | dir : String → Int → FSList → FSNode
  | file : String → Int → Int → Option GoErr → FileData → FSNode
deriving DecidableEq

/-- A list of sibling filesystem nodes. -/
inductive FSList where
  | nil : FSList
  | cons : FSNode → FSList → FSList
deriving DecidableEq

end

/-- The base name of a node. -/
def FSNode.name : FSNode → String
  | .dir n _ _ => n
  | .file n _ _ _ _ => n

/-- Is the node a directory (what `fileInfo.IsDir()` reports)? -/
def FSNode.isDirNode : FSNode → Bool
  | .dir .. => true
  | .file .. => false

mutual

/-- Go's `filepath.walk` composed with the closure `zipwalk.Walk` passes to
it (lstat and directory listing never fail in this model).  For a regular
file the closure opens it, hands `.zip`-named files to
`walkFuncRecursive`, and otherwise calls the visitor with the open file. -/
def goWalk (path : String) (n : FSNode) (walkFn : WalkFn) : List Visit × Option GoErr :=
  match n with
  | .file name sz mt oerr data =>
    let info : NodeInfo := ⟨name, sz, mt, false⟩
    (match oerr with
     | some e => callFn walkFn path info none (some e)
     | none =>
       if isZipName path then walkFuncRecursive path info data walkFn none
       else callFn walkFn path info (some data) none)
  | .dir name mt children =>
    let info : NodeInfo := ⟨name, 0, mt, true⟩
    match callFn walkFn path info none none with
    | (tr0, some e) => (tr0, some e)
    | (tr0, none) =>
      let (trc, rc) := goWalkChildren path children walkFn
      (tr0 ++ trc, rc)
termination_by structural n

/-- The loop over a directory's children inside `filepath.walk`: a child's
error aborts unless the child is a directory and the error is `SkipDir`. -/
def goWalkChildren (path : String) (ns : FSList) (walkFn : WalkFn) : List Visit × Option GoErr :=
  match ns with
  | .nil => ([], none)
  | .cons n rest =>
    let (trn, rn) := goWalk (joinPath path n.name) n walkFn
    match rn with
    | none =>
      let (tr2, r2) := goWalkChildren path rest walkFn
      (trn ++ tr2, r2)
    | some e =>
      if n.isDirNode ∧ e = .skipDir then
        let (tr2, r2) := goWalkChildren path rest walkFn
        (trn ++ tr2, r2)
      else (trn, some e)
termination_by structural ns

end

/-- `zipwalk.Walk root walkFn` where the filesystem at `root` is `n`:
`filepath.Walk` of the closure, with a final `SkipDir` result mapped to
`nil`. -/
def Walk (root : String) (n : FSNode) (walkFn : WalkFn) : List Visit × Option GoErr :=
  match goWalk root n walkFn with
  | (tr, r) => (tr, if r = some .skipDir then none else r)

/-! ### The nested-path resolver (`Stat` / `statRecursive`) -/

/-- The `for _, f := range zf.File` search in `statRecursive`: the first
entry whose stored name equals `name` (exact, case-sensitive comparison). -/
def findEntry (name : String) : EList → Option (String × NodeInfo × EntryRes)
  | .nil => none
  | .cons n fi eres rest =>
      if n = name then some (n, fi, eres) else findEntry name rest

/-- The filesystem and zip-library access used by `Stat` (and by the
modelled `Open`): `os.Stat`, `zip.OpenReader` (open a real file and decode
it as an archive), `os.Open` with full read of a real file's bytes, and the
`Close` outcome of the handle `zip.OpenReader` returns. -/
structure RealFS where
  osStat : String → Except GoErr NodeInfo
  openReader : String → Except GoErr EList
  openFile : String → Except GoErr FileData
  closeErrOf : String → Option GoErr

/-- The `fileToFind` computation of `statRecursive`: the whole remaining
path when it holds no further marker, otherwise its prefix up to and
including the next `.zip`. -/
def statTarget (p : String) : String :=
  match findZipMarker p with
  | none => p
  | some i => strTake p (i + 4)

/-- `statRecursive` of `zipwalk.go`: find the path's next marker-delimited
segment among the entry names; on the final segment return its metadata,
otherwise open, read and decode the matched entry as a nested archive and
recurse.  Wrap sites: 10 = "Error opening the file we wanted to find",
11 = "Error reading zip file", 12 = "Error opening zip file". -/
def statRecursive (es : EList) (p : String) : Except GoErr NodeInfo :=
  match h : findZipMarker p with
  | none =>
    match findEntry p es with
    | none => .error .notExist
    | some (_, fi, _) => .ok fi
  | some i =>
    match findEntry (strTake p (i + 4)) es with
    | none => .error .notExist
    | some (_, _, eres) =>
      match eres with
      | .openErr e => .error (.wrap 10 e)
      | .readErr e => .error (.wrap 11 e)
      | .content d =>
        match d with
        | .badZip e => .error (.wrap 12 e)
        | .zip es2 => statRecursive es2 (strDrop p (i + 4 + 1))
termination_by p.length
decreasing_by
  have key : ∀ (l : List Char) (j : Nat), findMarkerAux l = some j → j + 5 ≤ l.length := by
    intro l
    induction l with
    | nil => intro j hj; simp [findMarkerAux] at hj
    | cons c rest ih =>
      intro j hj
      rw [findMarkerAux] at hj
      by_cases hm : markerAt (c :: rest) = true
      · rw [if_pos hm] at hj
        cases hj
        cases rest with
        | nil => simp [markerAt] at hm
        | cons b1 r1 =>
          cases r1 with
          | nil => simp [markerAt] at hm
          | cons b2 r2 =>
            cases r2 with
            | nil => simp [markerAt] at hm
            | cons b3 r3 =>
              cases r3 with
              | nil => simp [markerAt] at hm
              | cons b4 r4 => simp only [List.length_cons]; omega
      · rw [if_neg hm] at hj
        cases hi : findMarkerAux rest with
        | none => rw [hi] at hj; simp at hj
        | some k =>
          rw [hi] at hj
          simp at hj
          have := ih k hi
          simp only [List.length_cons]
          omega
  have hb := key p.toList i h
  have hmk : ∀ l : List Char, (String.mk l).length = l.length := fun _ => rfl
  have hl : p.toList.length = p.length := rfl
  have hl' : p.data.length = p.length := rfl
  simp only [strDrop, hmk, List.length_drop]
  omega

/-- `zipwalk.Stat`: clean the path; with no `.zip/` marker delegate to
`os.Stat`; otherwise open the prefix up to the first marker with
`zip.OpenReader` (failure is `fmt.Errorf("error opening zip file - %s",
path)`) and resolve the rest with `statRecursive`. -/
def Stat (fs : RealFS) (path : String) : Except GoErr NodeInfo :=
  let p := cleanPath path
  match findZipMarker p with
  | none => fs.osStat p
  | some i =>
    match fs.openReader (strTake p (i + 4)) with
    | .error _ => .error (.openZipFailed p)
    | .ok es => statRecursive es (strDrop p (i + 4 + 1))

/-! ### The `Open` operation

`Open` is part of this repository (its tests call `zipwalk.Open` and close
the returned handle) but its code is not under `src/`; the definitions in
this section are modelled from the specification, §4.2. -/

/-- Modelled from the spec: split a cleaned path at every archive marker
(case-insensitive `.zip` extension immediately followed by the delimiter);
each produced chunk keeps its `.zip` suffix and the delimiters are
dropped.  This realizes the spec's iterative "first marker / next marker"
segmentation: a path with no marker yields a single chunk. -/
def splitChunksAux : List Char → List Char → List String
  | [], acc => [String.mk acc.reverse]
  | c :: rest, acc =>
      if markerAt (c :: rest) then
        match rest with
        | z :: i :: q :: _ :: rest2 =>
            String.mk (acc.reverse ++ [c, z, i, q]) :: splitChunksAux rest2 []
        | _ => [String.mk (acc.reverse ++ c :: rest)]
      else splitChunksAux rest (c :: acc)
termination_by structural l => l

/-- Modelled from the spec: the marker-delimited chunks of a path. -/
def splitChunks (s : String) : List String := splitChunksAux s.toList []

/-- Modelled from the spec: resolve the remaining chunks against a decoded
archive's entry list, and return the final matched entry's decompressed
content.  A missing segment is not-found; an I/O failure opening or
reading a matched entry, and a nested-archive decode failure, are fatal
and returned immediately. -/
def resolveChunks (es : EList) : List String → Except GoErr FileData
  | [] => .error .notExist
  | [lastChunk] =>
    match findEntry lastChunk es with
    | none => .error .notExist
    | some (_, _, eres) =>
      match eres with
      | .openErr e => .error (.wrap 20 e)
      | .readErr e => .error (.wrap 21 e)
      | .content d => .ok d
  | chunk :: rest =>
    match findEntry chunk es with
    | none => .error .notExist
    | some (_, _, eres) =>
      match eres with
      | .openErr e => .error (.wrap 20 e)
      | .readErr e => .error (.wrap 21 e)
      | .content d =>
        match d with
        | .badZip e => .error (.wrap 22 e)
        | .zip es2 => resolveChunks es2 rest
termination_by structural l => l

/-- Modelled from the spec: the reference meaning of a path — the
decompressed content of the addressed archive entry, or the real file's
bytes when no marker is present. -/
def resolveFS (fs : RealFS) (path : String) : Except GoErr FileData :=
  let p := cleanPath path
  match splitChunks p with
  | [] => .error .notExist
  | [_] => fs.openFile p
  | outer :: rest =>
    match fs.openReader outer with
    | .error e => .error e
    | .ok es => resolveChunks es rest

/-- Modelled from the spec: the handle `Open` returns — a byte stream over
the final entry's decompressed content, owning the resources acquired
along the descent chain (each with its close outcome), in acquisition
order. -/
structure OHandle where
  contents : FileData
  acquired : List (String × Option GoErr)

/-- Modelled from the spec: the descent of `Open`, accumulating the
acquired resources (the outermost archive's handle and each intermediate
decompressed-entry buffer; in-memory buffers close without error). -/
def openChunks (es : EList) (acc : List (String × Option GoErr)) :
    List String → Except GoErr OHandle
  | [] => .error .notExist
  | [lastChunk] =>
    match findEntry lastChunk es with
    | none => .error .notExist
    | some (_, _, eres) =>
      match eres with
      | .openErr e => .error (.wrap 20 e)
      | .readErr e => .error (.wrap 21 e)
      | .content d => .ok ⟨d, acc⟩
  | chunk :: rest =>
    match findEntry chunk es with
    | none => .error .notExist
    | some (_, _, eres) =>
      match eres with
      | .openErr e => .error (.wrap 20 e)
      | .readErr e => .error (.wrap 21 e)
      | .content d =>
        match d with
        | .badZip e => .error (.wrap 22 e)
        | .zip es2 => openChunks es2 (acc ++ [(chunk, none)]) rest
termination_by structural l => l

/-- Modelled from the spec: `zipwalk.Open` — resolve the path, returning a
readable handle over the addressed content that owns the whole descent
chain. -/
def Open (fs : RealFS) (path : String) : Except GoErr OHandle :=
  let p := cleanPath path
  match splitChunks p with
  | [] => .error .notExist
  | [_] =>
    match fs.openFile p with
    | .error e => .error e
    | .ok d => .ok ⟨d, [(p, fs.closeErrOf p)]⟩
  | outer :: rest =>
    match fs.openReader outer with
    | .error e => .error e
    | .ok es => openChunks es [(outer, fs.closeErrOf outer)] rest

/-- Reading all bytes from the handle yields the content it streams. -/
def readAll (h : OHandle) : FileData := h.contents

/-- Close a list of resources in order: every one is closed, and the first
error encountered is kept while the rest are still attempted. -/
def closeAll : List (String × Option GoErr) → List String × Option GoErr
  | [] => ([], none)
  | (nm, ce) :: rest =>
    let (nms, r) := closeAll rest
    (nm :: nms, match ce with | some e => some e | none => r)

/-- Modelled from the spec: `Close` on the handle releases the acquired
resources in reverse order of acquisition. -/
def Close (h : OHandle) : List String × Option GoErr := closeAll h.acquired.reverse

/-- Is the result an error? -/
def isErr (r : Except GoErr NodeInfo) : Bool :=
  match r with
  | .error _ => true
  | .ok _ => false

/-- An entry that cannot serve as an intermediate archive on a resolution
path: opening it fails, reading it fails, or its bytes do not decode as an
archive. -/
def entryBroken : EntryRes → Bool
  | .openErr _ => true
  | .readErr _ => true
  | .content (.badZip _) => true
  | .content (.zip _) => false

/-! ### Concrete fixtures (used by witnesses and counterexamples) -/

/-- A visitor that always continues. -/
def contFn : WalkFn := fun _ _ _ _ => none

/-- Plain text bytes: `zip.NewReader` rejects them as not a valid zip. -/
def txtBytes : FileData := .badZip (.lib .notValidZip)

/-- A one-entry archive: `dir1/dir1.txt`. -/
def dir1zip : FileData :=
  .zip (.cons "dir1/dir1.txt" ⟨"dir1.txt", 8, 12, false⟩ (.content txtBytes) .nil)

/-- An archive holding `a.txt` and the nested archive `dir1.zip`. -/
def azip : FileData :=
  .zip (.cons "a.txt" ⟨"a.txt", 8, 21, false⟩ (.content txtBytes)
       (.cons "dir1.zip" ⟨"dir1.zip", 100, 22, false⟩ (.content dir1zip) .nil))

/-- A directory holding a mis-extensioned `a.zip` (whose decode fails with
an error other than "not a valid zip file") followed by a sibling. -/
def fsC2 : FSNode :=
  .dir "r" 50
    (.cons (.file "a.zip" 3 60 none (.badZip (.lib (.other 0))))
    (.cons (.file "b.txt" 2 61 none txtBytes) .nil))

/-- An archive with a single plain entry `x.txt`. -/
def xzip : FileData :=
  .zip (.cons "x.txt" ⟨"x.txt", 4, 30, false⟩ (.content txtBytes) .nil)

/-- A visitor that fails with a non-sentinel error on `a.zip/x.txt`. -/
def errFn : WalkFn := fun p _ _ _ => if p = "a.zip/x.txt" then some (.user 5) else none

/-- A stat primitive that always reports not-found. -/
def stNone : String → Except GoErr NodeInfo := fun _ => .error .notExist

/-- A stat primitive that always succeeds. -/
def stOk : String → Except GoErr NodeInfo := fun _ => .ok ⟨"x", 1, 2, false⟩

/-- A `zip.OpenReader` that always fails (as on a directory). -/
def orFail : String → Except GoErr EList := fun _ => .error .notExist

/-- A `zip.OpenReader` exposing `azip` under `root/a.zip`. -/
def orA : String → Except GoErr EList :=
  fun p => if p = "root/a.zip" then
      .ok (.cons "a.txt" ⟨"a.txt", 8, 21, false⟩ (.content txtBytes)
          (.cons "dir1.zip" ⟨"dir1.zip", 100, 22, false⟩ (.content dir1zip) .nil))
    else .error .notExist

/-- An `os.Open`-with-read that always fails. -/
def ofFail : String → Except GoErr FileData := fun _ => .error .notExist

/-- All closes succeed. -/
def ceNone : String → Option GoErr := fun _ => none

/-- Depth-3 fixture for `Open`: `outer.zip` holds `mid.zip` holding
`inner.txt`. -/
def midZip : FileData :=
  .zip (.cons "inner.txt" ⟨"inner.txt", 5, 40, false⟩ (.content txtBytes) .nil)

/-- The entry list of `outer.zip`. -/
def outerEntries : EList :=
  .cons "mid.zip" ⟨"mid.zip", 200, 41, false⟩ (.content midZip) .nil

/-- A `RealFS` exposing `outer.zip` for the `Open` witness. -/
def fsOpen : RealFS :=
  { osStat := stNone
    openReader := fun p => if p = "outer.zip" then .ok outerEntries else .error .notExist
    openFile := ofFail
    closeErrOf := ceNone }

/-! ## Helper lemmas -/

/-- Unfolding equation for `walkFuncRecursive` (provable by cases because
the structural recursion is on `content`). -/
theorem walkFuncRecursive_eq (filePath : String) (info : NodeInfo)
    (content : FileData) (walkFn : WalkFn) (err : Option GoErr) :
    walkFuncRecursive filePath info content walkFn err =
      match err with
      | some e => ([], some (.wrap 0 e))
      | none =>
        match walkFn filePath info (some content) none with
        | some .skipZip => ([⟨filePath, info, some content, none⟩], none)
        | some e => ([⟨filePath, info, some content, none⟩], some (.wrap 1 e))
        | none =>
          match content with
          | .badZip e =>
              if containsNotValidZip e then ([⟨filePath, info, some content, none⟩], none)
              else ([⟨filePath, info, some content, none⟩], some (.wrap 2 e))
          | .zip es =>
              match walkEntries filePath info es walkFn with
              | (tr1, r) => (⟨filePath, info, some content, none⟩ :: tr1, r) := by
  cases content <;> rfl

mutual

/-- Every visit performed by `walkFuncRecursive` reports the modification
time of the `info` it was handed (the enclosing real archive file's
modification time). -/
theorem wfr_modtime (fp : String) (info : NodeInfo) (content : FileData)
    (walkFn : WalkFn) (err : Option GoErr) (v : Visit)
    (hv : v ∈ (walkFuncRecursive fp info content walkFn err).1) :
    v.info.modTime = info.modTime := by
  rw [walkFuncRecursive_eq] at hv
  cases err with
  | some e => simp at hv
  | none =>
    cases hw : walkFn fp info (some content) none with
    | some e =>
      rw [hw] at hv
      cases e <;> simp at hv <;> rw [hv]
    | none =>
      rw [hw] at hv
      cases content with
      | badZip e =>
        cases hc : containsNotValidZip e <;> simp [hc] at hv <;> rw [hv]
      | zip es =>
        rcases he : walkEntries fp info es walkFn with ⟨tr1, r⟩
        simp [he] at hv
        rcases hv with hv | hv
        · rw [hv]
        · exact we_modtime fp info es walkFn v (by rw [he]; exact hv)
termination_by sizeOf content

/-- Every visit performed by the entry loop reports the modification time
of the `info` it was handed. -/
theorem we_modtime (fp : String) (info : NodeInfo) (es : EList)
    (walkFn : WalkFn) (v : Visit)
    (hv : v ∈ (walkEntries fp info es walkFn).1) :
    v.info.modTime = info.modTime := by
  cases es with
  | nil =>
    have hnil : walkEntries fp info .nil walkFn = ([], none) := rfl
    rw [hnil] at hv
    simp at hv
  | cons name finfo eres rest =>
    cases eres with
    | openErr e =>
      rw [walkEntries] at hv
      cases hc : containsZipUnsupported e <;> simp [hc] at hv
    | readErr e =>
      rw [walkEntries] at hv
      cases hc : containsFlateCorrupt e with
      | true =>
        simp [hc] at hv
        exact we_modtime fp info rest walkFn v hv
      | false =>
        cases hc2 : containsEOF e with
        | true =>
          simp [hc, hc2] at hv
          exact we_modtime fp info rest walkFn v hv
        | false => simp [hc, hc2] at hv
    | content d =>
      rw [walkEntries] at hv
      cases hz : isZipName name with
      | true =>
        rcases hwf : walkFuncRecursive (joinPath fp name)
            (NewZipFileInfo info.modTime finfo) d walkFn none with ⟨tr, r⟩
        cases r with
        | some e =>
          simp [hz, hwf] at hv
          have := wfr_modtime (joinPath fp name) (NewZipFileInfo info.modTime finfo)
            d walkFn none v (by rw [hwf]; exact hv)
          simpa [NewZipFileInfo] using this
        | none =>
          rcases hre : walkEntries fp info rest walkFn with ⟨tr2, r2⟩
          simp [hz, hwf, hre] at hv
          rcases hv with hv | hv
          · have := wfr_modtime (joinPath fp name) (NewZipFileInfo info.modTime finfo)
              d walkFn none v (by rw [hwf]; exact hv)
            simpa [NewZipFileInfo] using this
          · exact we_modtime fp info rest walkFn v (by rw [hre]; exact hv)
      | false =>
        cases hw : walkFn (joinPath fp name) (NewZipFileInfo info.modTime finfo)
            (some d) none with
        | some e =>
          simp [hz, hw] at hv
          rw [hv]
          simp [NewZipFileInfo]
        | none =>
          rcases hre : walkEntries fp info rest walkFn with ⟨tr2, r2⟩
          simp [hz, hw, hre] at hv
          rcases hv with hv | hv
          · rw [hv]
            simp [NewZipFileInfo]
          · exact we_modtime fp info rest walkFn v (by rw [hre]; exact hv)
termination_by sizeOf es

end

/-- Unfolding equation for `goWalk` on a regular file (definitional, since
the structural recursion is on the node). -/
theorem goWalk_file (path name : String) (sz mt : Int) (oerr : Option GoErr)
    (data : FileData) (walkFn : WalkFn) :
    goWalk path (.file name sz mt oerr data) walkFn =
      match oerr with
      | some e => callFn walkFn path ⟨name, sz, mt, false⟩ none (some e)
      | none =>
        if isZipName path then walkFuncRecursive path ⟨name, sz, mt, false⟩ data walkFn none
        else callFn walkFn path ⟨name, sz, mt, false⟩ (some data) none := rfl

/-- Unfolding equation for `goWalk` on a directory (definitional). -/
theorem goWalk_dir (path name : String) (mt : Int) (children : FSList)
    (walkFn : WalkFn) :
    goWalk path (.dir name mt children) walkFn =
      match callFn walkFn path ⟨name, 0, mt, true⟩ none none with
      | (tr0, some e) => (tr0, some e)
      | (tr0, none) =>
        match goWalkChildren path children walkFn with
        | (trc, rc) => (tr0 ++ trc, rc) := rfl

/-- A non-wrapped `skipDir` wraps only itself. -/
theorem wraps_skipDir {e : GoErr} (h : Wraps .skipDir e) : e = .skipDir := by
  cases h
  rfl

/-- Appending preserves a known last element of the right part. -/
theorem getLast?_append_of {α : Type} (l₁ : List α) {l₂ : List α} {v : α}
    (h : l₂.getLast? = some v) : (l₁ ++ l₂).getLast? = some v := by
  rw [List.getLast?_append, h]
  rfl

/-- Consing preserves a known last element. -/
theorem getLast?_cons_of {α : Type} (a : α) {l : List α} {v : α}
    (h : l.getLast? = some v) : (a :: l).getLast? = some v := by
  rw [← List.singleton_append]
  exact getLast?_append_of _ h

/-- The archive-node visit returning a non-`SkipZip` error makes
`walkFuncRecursive` return the site-1 wrapped error at once. -/
theorem wfr_visit_some (fp : String) (info : NodeInfo) (content : FileData)
    (walkFn : WalkFn) (e : GoErr)
    (hwn : walkFn fp info (some content) none = some e) (hne : e ≠ .skipZip) :
    walkFuncRecursive fp info content walkFn none
      = ([⟨fp, info, some content, none⟩], some (.wrap 1 e)) := by
  rw [walkFuncRecursive_eq, hwn]
  cases e <;> simp_all

mutual

/-- If some visit performed by `walkFuncRecursive` got a non-`SkipZip`
error back from the visitor, then that visit is the last one (the walk
stopped there) and the function's result is that error under wrappings. -/
theorem wfr_error_last (fp : String) (info : NodeInfo) (content : FileData)
    (walkFn : WalkFn) (err : Option GoErr) (v : Visit) (e : GoErr)
    (tr : List Visit) (r : Option GoErr)
    (hres : walkFuncRecursive fp info content walkFn err = (tr, r))
    (hv : v ∈ tr)
    (hw : walkFn v.path v.info v.reader v.errArg = some e)
    (hne : e ≠ .skipZip) :
    tr.getLast? = some v ∧ ∃ w, r = some w ∧ Wraps w e := by
  cases err with
  | some e0 =>
    rw [walkFuncRecursive_eq] at hres
    injection hres with h1 h2
    subst h1
    simp at hv
  | none =>
    cases hwn : walkFn fp info (some content) none with
    | some e0 =>
      by_cases hsz : e0 = GoErr.skipZip
      · subst hsz
        rw [walkFuncRecursive_eq, hwn] at hres
        injection hres with h1 h2
        subst h1
        simp at hv
        subst hv
        have hw' : walkFn fp info (some content) none = some e := hw
        rw [hwn] at hw'
        injection hw' with h3
        exact absurd h3.symm hne
      · rw [wfr_visit_some fp info content walkFn e0 hwn hsz] at hres
        injection hres with h1 h2
        subst h1
        subst h2
        simp at hv
        subst hv
        have hw' : walkFn fp info (some content) none = some e := hw
        rw [hwn] at hw'
        injection hw' with h3
        refine ⟨rfl, .wrap 1 e0, rfl, ?_⟩
        rw [h3]
        exact .step 1 e e (.refl e)
    | none =>
      rw [walkFuncRecursive_eq, hwn] at hres
      cases content with
      | badZip e0 =>
        cases hc : containsNotValidZip e0 <;>
          · simp [hc] at hres
            rcases hres with ⟨h1, h2⟩
            subst h1
            simp at hv
            subst hv
            have hw' : walkFn fp info (some (FileData.badZip e0)) none = some e := hw
            rw [hwn] at hw'
            cases hw'
      | zip es =>
        rcases he : walkEntries fp info es walkFn with ⟨tr1, r1⟩
        simp [he] at hres
        rcases hres with ⟨h1, h2⟩
        subst h1
        subst h2
        rcases List.mem_cons.mp hv with hv0 | hv1
        · subst hv0
          have hw' : walkFn fp info (some (FileData.zip es)) none = some e := hw
          rw [hwn] at hw'
          cases hw'
        · rcases we_error_last fp info es walkFn v e tr1 r1 he hv1 hw hne
            with ⟨hl, w, hr, hwr⟩
          exact ⟨getLast?_cons_of _ hl, w, hr, hwr⟩
termination_by sizeOf content

/-- If some visit performed by the entry loop got a non-`SkipZip` error
back from the visitor, the loop stopped there and propagated the error
under wrappings. -/
theorem we_error_last (fp : String) (info : NodeInfo) (es : EList)
    (walkFn : WalkFn) (v : Visit) (e : GoErr)
    (tr : List Visit) (r : Option GoErr)
    (hres : walkEntries fp info es walkFn = (tr, r))
    (hv : v ∈ tr)
    (hw : walkFn v.path v.info v.reader v.errArg = some e)
    (hne : e ≠ .skipZip) :
    tr.getLast? = some v ∧ ∃ w, r = some w ∧ Wraps w e := by
  cases es with
  | nil =>
    have hnil : walkEntries fp info .nil walkFn = ([], none) := rfl
    rw [hnil] at hres
    injection hres with h1 h2
    subst h1
    simp at hv
  | cons name finfo eres rest =>
    cases eres with
    | openErr e0 =>
      rw [walkEntries] at hres
      cases hc : containsZipUnsupported e0 <;>
        · simp [hc] at hres
          rcases hres with ⟨h1, h2⟩
          subst h1
          simp at hv
    | readErr e0 =>
      rw [walkEntries] at hres
      cases hc : containsFlateCorrupt e0 with
      | true =>
        simp [hc] at hres
        exact we_error_last fp info rest walkFn v e tr r hres hv hw hne
      | false =>
        cases hc2 : containsEOF e0 with
        | true =>
          simp [hc, hc2] at hres
          exact we_error_last fp info rest walkFn v e tr r hres hv hw hne
        | false =>
          simp [hc, hc2] at hres
          rcases hres with ⟨h1, h2⟩
          subst h1
          simp at hv
    | content d =>
      rw [walkEntries] at hres
      cases hz : isZipName name with
      | true =>
        rcases hwf : walkFuncRecursive (joinPath fp name)
            (NewZipFileInfo info.modTime finfo) d walkFn none with ⟨trA, rA⟩
        cases rA with
        | some eA =>
          simp [hz, hwf] at hres
          rcases hres with ⟨h1, h2⟩
          subst h1
          subst h2
          rcases wfr_error_last (joinPath fp name) (NewZipFileInfo info.modTime finfo)
              d walkFn none v e trA (some eA) hwf hv hw hne with ⟨hl, w, hr, hwr⟩
          injection hr with h3
          subst h3
          exact ⟨hl, .wrap 5 eA, rfl, .step 5 eA e hwr⟩
        | none =>
          rcases hre : walkEntries fp info rest walkFn with ⟨tr2, r2⟩
          simp [hz, hwf, hre] at hres
          rcases hres with ⟨h1, h2⟩
          subst h1
          subst h2
          rcases List.mem_append.mp hv with hvA | hv2
          · rcases wfr_error_last (joinPath fp name) (NewZipFileInfo info.modTime finfo)
                d walkFn none v e trA none hwf hvA hw hne with ⟨_, w, hr, _⟩
            cases hr
          · rcases we_error_last fp info rest walkFn v e tr2 r2 hre hv2 hw hne
              with ⟨hl, w, hr, hwr⟩
            exact ⟨getLast?_append_of _ hl, w, hr, hwr⟩
      | false =>
        cases hwn : walkFn (joinPath fp name) (NewZipFileInfo info.modTime finfo)
            (some d) none with
        | some e0 =>
          simp [hz, hwn] at hres
          rcases hres with ⟨h1, h2⟩
          subst h1
          subst h2
          simp at hv
          subst hv
          have hw' : walkFn (joinPath fp name) (NewZipFileInfo info.modTime finfo)
              (some d) none = some e := hw
          rw [hwn] at hw'
          injection hw' with h3
          refine ⟨rfl, .wrap 6 e0, rfl, ?_⟩
          rw [h3]
          exact .step 6 e e (.refl e)
        | none =>
          rcases hre : walkEntries fp info rest walkFn with ⟨tr2, r2⟩
          simp [hz, hwn, hre] at hres
          rcases hres with ⟨h1, h2⟩
          subst h1
          subst h2
          rcases List.mem_cons.mp hv with hv0 | hv2
          · subst hv0
            have hw' : walkFn (joinPath fp name) (NewZipFileInfo info.modTime finfo)
                (some d) none = some e := hw
            rw [hwn] at hw'
            cases hw'
          · rcases we_error_last fp info rest walkFn v e tr2 r2 hre hv2 hw hne
              with ⟨hl, w, hr, hwr⟩
            exact ⟨getLast?_cons_of _ hl, w, hr, hwr⟩
termination_by sizeOf es

end

mutual

/-- If some visit performed by `filepath.Walk`'s recursion (composed with
the zipwalk closure) got a non-sentinel error back from the visitor, that
visit is the last one and the result is that error under wrappings. -/
theorem gw_error_last (path : String) (n : FSNode) (walkFn : WalkFn)
    (v : Visit) (e : GoErr) (tr : List Visit) (r : Option GoErr)
    (hres : goWalk path n walkFn = (tr, r)) (hv : v ∈ tr)
    (hw : walkFn v.path v.info v.reader v.errArg = some e)
    (hz : e ≠ .skipZip) (hd : e ≠ .skipDir) :
    tr.getLast? = some v ∧ ∃ w, r = some w ∧ Wraps w e := by
  cases n with
  | file name sz mt oerr data =>
    rw [goWalk_file] at hres
    cases oerr with
    | some e0 =>
      simp [callFn] at hres
      rcases hres with ⟨h1, h2⟩
      subst h1
      subst h2
      simp at hv
      subst hv
      have hw' : walkFn path ⟨name, sz, mt, false⟩ none (some e0) = some e := hw
      exact ⟨rfl, e, hw', .refl e⟩
    | none =>
      cases hzn : isZipName path with
      | true =>
        simp only [hzn, if_true] at hres
        exact wfr_error_last path ⟨name, sz, mt, false⟩ data walkFn none v e tr r
          hres hv hw hz
      | false =>
        simp only [hzn, if_false, Bool.false_eq_true] at hres
        simp [callFn] at hres
        rcases hres with ⟨h1, h2⟩
        subst h1
        subst h2
        simp at hv
        subst hv
        have hw' : walkFn path ⟨name, sz, mt, false⟩ (some data) none = some e := hw
        exact ⟨rfl, e, hw', .refl e⟩
  | dir name mt children =>
    rw [goWalk_dir] at hres
    cases hwn : walkFn path ⟨name, 0, mt, true⟩ none none with
    | some e0 =>
      simp [callFn, hwn] at hres
      rcases hres with ⟨h1, h2⟩
      subst h1
      subst h2
      simp at hv
      subst hv
      have hw' : walkFn path ⟨name, 0, mt, true⟩ none none = some e := hw
      rw [hwn] at hw'
      injection hw' with h3
      subst h3
      exact ⟨rfl, e0, rfl, .refl e0⟩
    | none =>
      rcases hgc : goWalkChildren path children walkFn with ⟨trc, rc⟩
      simp [callFn, hwn, hgc] at hres
      rcases hres with ⟨h1, h2⟩
      subst h1
      subst h2
      rcases List.mem_cons.mp hv with hv0 | hvc
      · subst hv0
        have hw' : walkFn path ⟨name, 0, mt, true⟩ none none = some e := hw
        rw [hwn] at hw'
        cases hw'
      · rcases gwc_error_last path children walkFn v e trc rc hgc hvc hw hz hd
          with ⟨hl, w, hr, hwr⟩
        exact ⟨getLast?_cons_of _ hl, w, hr, hwr⟩
termination_by sizeOf n

/-- The sibling-loop analogue of `gw_error_last`. -/
theorem gwc_error_last (path : String) (ns : FSList) (walkFn : WalkFn)
    (v : Visit) (e : GoErr) (tr : List Visit) (r : Option GoErr)
    (hres : goWalkChildren path ns walkFn = (tr, r)) (hv : v ∈ tr)
    (hw : walkFn v.path v.info v.reader v.errArg = some e)
    (hz : e ≠ .skipZip) (hd : e ≠ .skipDir) :
    tr.getLast? = some v ∧ ∃ w, r = some w ∧ Wraps w e := by
  cases ns with
  | nil =>
    have hnil : goWalkChildren path .nil walkFn = ([], none) := rfl
    rw [hnil] at hres
    injection hres with h1 h2
    subst h1
    simp at hv
  | cons n rest =>
    rw [goWalkChildren] at hres
    rcases hg : goWalk (joinPath path n.name) n walkFn with ⟨trn, rn⟩
    cases rn with
    | none =>
      rcases hr2 : goWalkChildren path rest walkFn with ⟨tr2, r2⟩
      simp [hg, hr2] at hres
      rcases hres with ⟨h1, h2⟩
      subst h1
      subst h2
      rcases List.mem_append.mp hv with hvn | hv2
      · rcases gw_error_last (joinPath path n.name) n walkFn v e trn none hg hvn hw hz hd
          with ⟨_, w, hr, _⟩
        cases hr
      · rcases gwc_error_last path rest walkFn v e tr2 r2 hr2 hv2 hw hz hd
          with ⟨hl, w, hr, hwr⟩
        exact ⟨getLast?_append_of _ hl, w, hr, hwr⟩
    | some en =>
      by_cases hcond : (n.isDirNode = true ∧ en = GoErr.skipDir)
      · rcases hr2 : goWalkChildren path rest walkFn with ⟨tr2, r2⟩
        simp [hg, hcond, hr2] at hres
        rcases hres with ⟨h1, h2⟩
        subst h1
        subst h2
        rcases List.mem_append.mp hv with hvn | hv2
        · rcases gw_error_last (joinPath path n.name) n walkFn v e trn (some en) hg hvn hw hz hd
            with ⟨_, w, hr, hwr⟩
          injection hr with h3
          subst h3
          rw [hcond.2] at hwr
          exact absurd (wraps_skipDir hwr) hd
        · rcases gwc_error_last path rest walkFn v e tr2 r2 hr2 hv2 hw hz hd
            with ⟨hl, w, hr, hwr⟩
          exact ⟨getLast?_append_of _ hl, w, hr, hwr⟩
      · simp [hg, hcond] at hres
        rcases hres with ⟨h1, h2⟩
        subst h1
        subst h2
        rcases gw_error_last (joinPath path n.name) n walkFn v e trn (some en) hg hv hw hz hd
          with ⟨hl, w, hr, hwr⟩
        injection hr with h3
        subst h3
        exact ⟨hl, en, rfl, hwr⟩
termination_by sizeOf ns

end

/-- Unfolding equation for `openChunks` on a final chunk (definitional). -/
theorem openChunks_last (es : EList) (acc : List (String × Option GoErr)) (c : String) :
    openChunks es acc [c] =
      match findEntry c es with
      | none => .error .notExist
      | some (_, _, eres) =>
        match eres with
        | .openErr e => .error (.wrap 20 e)
        | .readErr e => .error (.wrap 21 e)
        | .content d => .ok ⟨d, acc⟩ := rfl

/-- Unfolding equation for `openChunks` on an intermediate chunk
(definitional). -/
theorem openChunks_cons2 (es : EList) (acc : List (String × Option GoErr))
    (c c2 : String) (rest : List String) :
    openChunks es acc (c :: c2 :: rest) =
      match findEntry c es with
      | none => .error .notExist
      | some (_, _, eres) =>
        match eres with
        | .openErr e => .error (.wrap 20 e)
        | .readErr e => .error (.wrap 21 e)
        | .content d =>
          match d with
          | .badZip e => .error (.wrap 22 e)
          | .zip es2 => openChunks es2 (acc ++ [(c, none)]) (c2 :: rest) := rfl

/-- Unfolding equation for `resolveChunks` on a final chunk
(definitional). -/
theorem resolveChunks_last (es : EList) (c : String) :
    resolveChunks es [c] =
      match findEntry c es with
      | none => .error .notExist
      | some (_, _, eres) =>
        match eres with
        | .openErr e => .error (.wrap 20 e)
        | .readErr e => .error (.wrap 21 e)
        | .content d => .ok d := rfl

/-- Unfolding equation for `resolveChunks` on an intermediate chunk
(definitional). -/
theorem resolveChunks_cons2 (es : EList) (c c2 : String) (rest : List String) :
    resolveChunks es (c :: c2 :: rest) =
      match findEntry c es with
      | none => .error .notExist
      | some (_, _, eres) =>
        match eres with
        | .openErr e => .error (.wrap 20 e)
        | .readErr e => .error (.wrap 21 e)
        | .content d =>
          match d with
          | .badZip e => .error (.wrap 22 e)
          | .zip es2 => resolveChunks es2 (c2 :: rest) := rfl

/-- A successful `openChunks` descent resolves to the handle's contents. -/
theorem openChunks_resolve (chunks : List String) (es : EList)
    (acc : List (String × Option GoErr)) (h : OHandle)
    (hres : openChunks es acc chunks = .ok h) :
    resolveChunks es chunks = .ok h.contents := by
  induction chunks generalizing es acc with
  | nil => simp [openChunks] at hres
  | cons c rest ih =>
    cases rest with
    | nil =>
      rw [openChunks_last] at hres
      rw [resolveChunks_last]
      cases hf : findEntry c es with
      | none => rw [hf] at hres; cases hres
      | some t =>
        rcases t with ⟨nm, fi, eres⟩
        rw [hf] at hres
        cases eres with
        | openErr e => cases hres
        | readErr e => cases hres
        | content d =>
          injection hres with h1
          subst h1
          simp [hf, readAll]
    | cons c2 rest2 =>
      rw [openChunks_cons2] at hres
      rw [resolveChunks_cons2]
      cases hf : findEntry c es with
      | none => rw [hf] at hres; cases hres
      | some t =>
        rcases t with ⟨nm, fi, eres⟩
        rw [hf] at hres
        cases eres with
        | openErr e => cases hres
        | readErr e => cases hres
        | content d =>
          cases d with
          | badZip e => cases hres
          | zip es2 => exact ih es2 (acc ++ [(c, none)]) hres

/-- `closeAll` releases every resource in list order. -/
theorem closeAll_fst (l : List (String × Option GoErr)) :
    (closeAll l).1 = l.map Prod.fst := by
  induction l with
  | nil => rfl
  | cons a rest ih =>
    rcases a with ⟨nm, ce⟩
    rcases hc : closeAll rest with ⟨nms, r⟩
    rw [hc] at ih
    simp [closeAll, hc]
    exact ih

/-! ## Claim theorems -/

/-- C1: during `Walk`'s descent into an archive, an entry whose
decompressed bytes cannot be read because it is encrypted (a
"flate: corrupt input" failure) or ends unexpectedly (an "EOF" failure)
is skipped on its own: the archive's traversal equals the traversal with
that entry removed, so every sibling entry is still visited, in order,
and the result is unchanged. -/
theorem walk_skips_unreadable_entry (fp : String) (info : NodeInfo) (name : String)
    (finfo : NodeInfo) (e : GoErr) (rest : EList) (walkFn : WalkFn)
    (h : containsFlateCorrupt e = true ∨ containsEOF e = true) :
    walkEntries fp info (.cons name finfo (.readErr e) rest) walkFn
      = walkEntries fp info rest walkFn := by
  rcases h with h | h
  · rw [walkEntries]
    simp [h]
  · rw [walkEntries]
    cases hc : containsFlateCorrupt e <;> simp [hc, h]

/-- Witness for C1: a concrete encrypted entry is skipped and its sibling
still visited. -/
theorem walk_skips_unreadable_entry_witness :
    (containsFlateCorrupt (.lib .flateCorrupt) = true ∨
      containsEOF (.lib .flateCorrupt) = true) ∧
    walkEntries "r/a.zip" ⟨"a.zip", 9, 600, false⟩
        (.cons "x.txt" ⟨"x.txt", 4, 30, false⟩ (.readErr (.lib .flateCorrupt))
          (.cons "y.txt" ⟨"y.txt", 2, 31, false⟩ (.content txtBytes) .nil)) contFn
      = walkEntries "r/a.zip" ⟨"a.zip", 9, 600, false⟩
          (.cons "y.txt" ⟨"y.txt", 2, 31, false⟩ (.content txtBytes) .nil) contFn :=
  ⟨Or.inl (by decide),
   walk_skips_unreadable_entry "r/a.zip" ⟨"a.zip", 9, 600, false⟩ "x.txt"
     ⟨"x.txt", 4, 30, false⟩ (.lib .flateCorrupt)
     (.cons "y.txt" ⟨"y.txt", 2, 31, false⟩ (.content txtBytes) .nil) contFn
     (Or.inl (by decide))⟩

/-- C4: a visitor returning `SkipZip` on an archive node prevents the
archive from being decoded and any of its entries from being visited
(the node's own visit is the only one), with a `nil` result; for a nested
archive entry, the enclosing loop then continues with the archive's
siblings, whose visits and result are unchanged. -/
theorem skipzip_skips_archive_entries (fp : String) (info : NodeInfo)
    (content : FileData) (name : String) (finfo : NodeInfo) (d : FileData)
    (rest : EList) (walkFn : WalkFn) :
    (walkFn fp info (some content) none = some .skipZip →
      walkFuncRecursive fp info content walkFn none
        = ([⟨fp, info, some content, none⟩], none)) ∧
    (isZipName name = true →
      walkFn (joinPath fp name) (NewZipFileInfo info.modTime finfo) (some d) none
          = some .skipZip →
      walkEntries fp info (.cons name finfo (.content d) rest) walkFn
        = (⟨joinPath fp name, NewZipFileInfo info.modTime finfo, some d, none⟩ ::
             (walkEntries fp info rest walkFn).1,
           (walkEntries fp info rest walkFn).2)) := by
  constructor
  · intro h
    rw [walkFuncRecursive_eq]
    simp [h]
  · intro hz h
    rcases hr : walkEntries fp info rest walkFn with ⟨tr2, r2⟩
    rw [walkEntries]
    rw [walkFuncRecursive_eq]
    simp [hz, h, hr]

/-- Witness for C4: `SkipZip` on the concrete archive `azip` yields only
the archive-node visit, and on a nested `dir1.zip` entry the sibling loop
continues. -/
theorem skipzip_skips_archive_entries_witness :
    ((fun (_ : String) (_ : NodeInfo) (_ : Option FileData) (_ : Option GoErr) =>
        some GoErr.skipZip) "r/a.zip" ⟨"a.zip", 9, 600, false⟩ (some azip) none
      = some .skipZip) ∧
    walkFuncRecursive "r/a.zip" ⟨"a.zip", 9, 600, false⟩ azip
        (fun _ _ _ _ => some GoErr.skipZip) none
      = ([⟨"r/a.zip", ⟨"a.zip", 9, 600, false⟩, some azip, none⟩], none) :=
  ⟨rfl,
   (skipzip_skips_archive_entries "r/a.zip" ⟨"a.zip", 9, 600, false⟩ azip
     "unused" ⟨"unused", 0, 0, false⟩ txtBytes .nil
     (fun _ _ _ _ => some GoErr.skipZip)).1 rfl⟩

/-- C10: inside an archive, `SkipDir` is not honored as a skip sentinel:
returned for the archive node itself it becomes a wrapped error (site 1),
returned for a plain entry it becomes a wrapped error (site 6), and a
wrapped error is never the `SkipDir` sentinel, so `filepath.Walk` aborts
the entire walk with a non-nil error. -/
theorem skipdir_in_archive_aborts (fp : String) (info : NodeInfo)
    (content : FileData) (name : String) (finfo : NodeInfo) (d : FileData)
    (rest : EList) (walkFn : WalkFn) :
    (walkFn fp info (some content) none = some .skipDir →
      walkFuncRecursive fp info content walkFn none
        = ([⟨fp, info, some content, none⟩], some (.wrap 1 .skipDir))) ∧
    (isZipName name = false →
      walkFn (joinPath fp name) (NewZipFileInfo info.modTime finfo) (some d) none
          = some .skipDir →
      walkEntries fp info (.cons name finfo (.content d) rest) walkFn
        = ([⟨joinPath fp name, NewZipFileInfo info.modTime finfo, some d, none⟩],
           some (.wrap 6 .skipDir))) ∧
    ((GoErr.wrap 1 .skipDir ≠ .skipDir) ∧ (GoErr.wrap 6 .skipDir ≠ .skipDir)) := by
  refine ⟨?_, ?_, by simp, by simp⟩
  · intro h
    rw [walkFuncRecursive_eq]
    simp [h]
  · intro hz h
    rw [walkEntries]
    simp [hz, h]

/-- Witness for C10: a visitor answering `SkipDir` on the entry
`a.zip/x.txt` aborts with a wrapped error. -/
theorem skipdir_in_archive_aborts_witness :
    (isZipName "x.txt" = false) ∧
    ((fun (p : String) (_ : NodeInfo) (_ : Option FileData) (_ : Option GoErr) =>
        if p = "a.zip/x.txt" then some GoErr.skipDir else none) "a.zip/x.txt"
        (NewZipFileInfo 600 ⟨"x.txt", 4, 30, false⟩) (some txtBytes) none
      = some .skipDir) ∧
    walkEntries "a.zip" ⟨"a.zip", 9, 600, false⟩
        (.cons "x.txt" ⟨"x.txt", 4, 30, false⟩ (.content txtBytes) .nil)
        (fun p _ _ _ => if p = "a.zip/x.txt" then some GoErr.skipDir else none)
      = ([⟨"a.zip/x.txt", NewZipFileInfo 600 ⟨"x.txt", 4, 30, false⟩, some txtBytes, none⟩],
         some (.wrap 6 .skipDir)) :=
  ⟨by decide, by decide,
   (skipdir_in_archive_aborts "a.zip" ⟨"a.zip", 9, 600, false⟩ txtBytes
     "x.txt" ⟨"x.txt", 4, 30, false⟩ txtBytes .nil
     (fun p _ _ _ => if p = "a.zip/x.txt" then some GoErr.skipDir else none)).2.1
     (by decide) (by decide)⟩

/-- C5: a path without any case-insensitive `.zip`-plus-delimiter marker is
a plain filesystem path: `Stat` delegates directly to the stat primitive
on the cleaned path, and its result does not depend on the archive-reading
components of the filesystem access layer (no archive decoding occurs). -/
theorem stat_no_marker_delegates (st : String → Except GoErr NodeInfo)
    (orA' orB' : String → Except GoErr EList)
    (ofA' ofB' : String → Except GoErr FileData)
    (ceA' ceB' : String → Option GoErr) (p : String)
    (h : findZipMarker (cleanPath p) = none) :
    Stat ⟨st, orA', ofA', ceA'⟩ p = st (cleanPath p) ∧
    Stat ⟨st, orA', ofA', ceA'⟩ p = Stat ⟨st, orB', ofB', ceB'⟩ p := by
  constructor <;> simp [Stat, h]

/-- Witness for C5: `"a.zipfoo/x"` contains no marker, so `Stat` is the
stat primitive's answer whatever the archive layer does. -/
theorem stat_no_marker_delegates_witness :
    (findZipMarker (cleanPath "a.zipfoo/x") = none) ∧
    (Stat ⟨stNone, orFail, ofFail, ceNone⟩ "a.zipfoo/x"
        = stNone (cleanPath "a.zipfoo/x") ∧
      Stat ⟨stNone, orFail, ofFail, ceNone⟩ "a.zipfoo/x"
        = Stat ⟨stNone, orA, ofFail, ceNone⟩ "a.zipfoo/x") :=
  ⟨by decide,
   stat_no_marker_delegates stNone orFail orA ofFail ofFail ceNone ceNone
     "a.zipfoo/x" (by decide)⟩

/-- C9: as soon as the cleaned path contains a marker, `Stat`
unconditionally opens the prefix up to the marker as a zip archive; when
that open fails (for instance because the prefix names a real directory),
`Stat` returns the "error opening zip file" error even though the plain
stat primitive would succeed on the very same path. -/
theorem stat_marker_opens_archive_prefix (st : String → Except GoErr NodeInfo)
    (orr : String → Except GoErr EList) (ofl : String → Except GoErr FileData)
    (ce : String → Option GoErr) (p : String) (i : Nat) (e : GoErr) (info : NodeInfo)
    (hm : findZipMarker (cleanPath p) = some i)
    (hz : orr (strTake (cleanPath p) (i + 4)) = .error e)
    (_hs : st (cleanPath p) = .ok info) :
    Stat ⟨st, orr, ofl, ce⟩ p = .error (.openZipFailed (cleanPath p)) := by
  simp [Stat, hm, hz]

/-- Witness for C9: `"root/d.zip/x"` where `root/d.zip` is a real directory
(so `zip.OpenReader` fails) and the full path exists for plain stat. -/
theorem stat_marker_opens_archive_prefix_witness :
    (findZipMarker (cleanPath "root/d.zip/x") = some 6) ∧
    (orFail (strTake (cleanPath "root/d.zip/x") (6 + 4)) = .error .notExist) ∧
    (stOk (cleanPath "root/d.zip/x") = .ok ⟨"x", 1, 2, false⟩) ∧
    Stat ⟨stOk, orFail, ofFail, ceNone⟩ "root/d.zip/x"
      = .error (.openZipFailed (cleanPath "root/d.zip/x")) :=
  ⟨by decide, rfl, rfl,
   stat_marker_opens_archive_prefix stOk orFail ofFail ceNone "root/d.zip/x"
     6 .notExist ⟨"x", 1, 2, false⟩ (by decide) rfl rfl⟩

/-- C6: inside archives, `statRecursive` matches segments exactly and
case-sensitively against stored entry names: when no entry name equals the
marker-delimited target segment it fails with `os.ErrNotExist` (this
covers a missing final segment and a missing intermediate segment alike),
and when an intermediate segment matches an entry that cannot be opened,
read, or decoded as an archive it fails with an error — never a success
value. -/
theorem stat_missing_or_invalid_segment (es : EList) (p : String) :
    (findEntry (statTarget p) es = none →
      statRecursive es p = .error .notExist) ∧
    (∀ nm fi eres, findEntry (statTarget p) es = some (nm, fi, eres) →
      (findZipMarker p).isSome = true → entryBroken eres = true →
      isErr (statRecursive es p) = true) := by
  constructor
  · intro h
    cases hz : findZipMarker p with
    | none =>
      simp only [statTarget, hz] at h
      rw [statRecursive, hz]
      simp [h]
    | some i =>
      simp only [statTarget, hz] at h
      rw [statRecursive, hz]
      simp [h]
  · intro nm fi eres hf hm hb
    rcases Option.isSome_iff_exists.mp hm with ⟨i, hz⟩
    simp only [statTarget, hz] at hf
    rw [statRecursive, hz]
    cases eres with
    | openErr e => simp [hf, isErr]
    | readErr e => simp [hf, isErr]
    | content d =>
      cases d with
      | badZip e => simp [hf, isErr]
      | zip es2 => simp [entryBroken] at hb

/-- Witness for C6: a missing name gives not-found; a matched segment that
is not a valid archive gives an error. -/
theorem stat_missing_or_invalid_segment_witness :
    (findEntry (statTarget "missing.txt")
        (.cons "a.txt" ⟨"a.txt", 8, 21, false⟩ (.content txtBytes) .nil) = none ∧
      statRecursive (.cons "a.txt" ⟨"a.txt", 8, 21, false⟩ (.content txtBytes) .nil)
        "missing.txt" = .error .notExist) ∧
    (findEntry (statTarget "d.zip/x")
        (.cons "d.zip" ⟨"d.zip", 3, 9, false⟩ (.content txtBytes) .nil)
        = some ("d.zip", ⟨"d.zip", 3, 9, false⟩, .content txtBytes) ∧
      (findZipMarker "d.zip/x").isSome = true ∧
      entryBroken (.content txtBytes) = true ∧
      isErr (statRecursive (.cons "d.zip" ⟨"d.zip", 3, 9, false⟩ (.content txtBytes) .nil)
        "d.zip/x") = true) :=
  ⟨⟨by decide,
    (stat_missing_or_invalid_segment
      (.cons "a.txt" ⟨"a.txt", 8, 21, false⟩ (.content txtBytes) .nil)
      "missing.txt").1 (by decide)⟩,
   ⟨by decide, by decide, by decide,
    (stat_missing_or_invalid_segment
      (.cons "d.zip" ⟨"d.zip", 3, 9, false⟩ (.content txtBytes) .nil)
      "d.zip/x").2 "d.zip" ⟨"d.zip", 3, 9, false⟩ (.content txtBytes)
      (by decide) (by decide) (by decide)⟩⟩

/-- C3: every visit performed during an archive descent reports as its
modification time the modification time carried by the `info` handed to
`walkFuncRecursive` — for a real `.zip` file walked by `Walk`, the real
file's filesystem modification time — never the per-entry timestamp
stored in the archive. -/
theorem zip_entries_inherit_archive_modtime :
    (∀ (fp : String) (info : NodeInfo) (content : FileData) (walkFn : WalkFn) (v : Visit),
      v ∈ (walkFuncRecursive fp info content walkFn none).1 →
      v.info.modTime = info.modTime) ∧
    (∀ (root name : String) (sz mt : Int) (data : FileData) (walkFn : WalkFn) (v : Visit),
      isZipName root = true →
      v ∈ (goWalk root (.file name sz mt none data) walkFn).1 →
      v.info.modTime = mt) := by
  constructor
  · intro fp info content walkFn v hv
    exact wfr_modtime fp info content walkFn none v hv
  · intro root name sz mt data walkFn v hz hv
    rw [goWalk_file] at hv
    simp only [hz, if_true] at hv
    exact wfr_modtime root ⟨name, sz, mt, false⟩ data walkFn none v hv

/-- Witness for C3: the doubly-nested entry `dir1/dir1.txt` (stored
per-entry timestamp 12) is reported with the real archive's timestamp
600. -/
theorem zip_entries_inherit_archive_modtime_witness :
    (⟨"r/a.zip/dir1.zip/dir1/dir1.txt", ⟨"dir1.txt", 8, 600, false⟩,
        some txtBytes, none⟩ : Visit)
      ∈ (walkFuncRecursive "r/a.zip" ⟨"a.zip", 9, 600, false⟩ azip contFn none).1 ∧
    (⟨"r/a.zip/dir1.zip/dir1/dir1.txt", ⟨"dir1.txt", 8, 600, false⟩,
        some txtBytes, none⟩ : Visit).info.modTime = (600 : Int) :=
  ⟨by decide,
   zip_entries_inherit_archive_modtime.1 "r/a.zip" ⟨"a.zip", 9, 600, false⟩ azip contFn
     ⟨"r/a.zip/dir1.zip/dir1/dir1.txt", ⟨"dir1.txt", 8, 600, false⟩, some txtBytes, none⟩
     (by decide)⟩

/-- C2 counterexample: a real file `r/a.zip` whose decode fails with a zip
error other than "not a valid zip file" aborts the whole walk — the
sibling `r/b.txt` is never visited and `Walk` returns a non-nil error —
refuting "for every possible decode failure the walk continues". -/
theorem walk_decode_abort_cex :
    (Walk "r" fsC2 contFn).1.map Visit.path = ["r", "r/a.zip"] ∧
    (Walk "r" fsC2 contFn).2 = some (.wrap 2 (.lib (.other 0))) := by
  constructor <;> decide

/-- C2 (amended): a decode failure whose message contains
"zip: not a valid zip file" is non-fatal — the file's node visit is the
only effect and the result is `nil`, so the enclosing loop continues with
the next sibling — while any other decode failure returns a wrapped error
that aborts the walk. -/
theorem walk_decode_failure_policy (fp : String) (info : NodeInfo) (e : GoErr)
    (walkFn : WalkFn) (p : String) (n : FSNode) (rest : FSList)
    (hvisit : walkFn fp info (some (.badZip e)) none = none) :
    (containsNotValidZip e = true →
      walkFuncRecursive fp info (.badZip e) walkFn none
        = ([⟨fp, info, some (.badZip e), none⟩], none)) ∧
    (containsNotValidZip e = false →
      walkFuncRecursive fp info (.badZip e) walkFn none
        = ([⟨fp, info, some (.badZip e), none⟩], some (.wrap 2 e))) ∧
    ((goWalk (joinPath p n.name) n walkFn).2 = none →
      goWalkChildren p (.cons n rest) walkFn
        = ((goWalk (joinPath p n.name) n walkFn).1 ++ (goWalkChildren p rest walkFn).1,
           (goWalkChildren p rest walkFn).2)) := by
  refine ⟨?_, ?_, ?_⟩
  · intro h
    rw [walkFuncRecursive_eq]
    simp [hvisit, h]
  · intro h
    rw [walkFuncRecursive_eq]
    simp [hvisit, h]
  · intro hc
    rw [goWalkChildren]
    rcases hg : goWalk (joinPath p n.name) n walkFn with ⟨trn, rn⟩
    rw [hg] at hc
    simp only at hc
    subst hc
    rcases hr : goWalkChildren p rest walkFn with ⟨tr2, r2⟩
    simp [hg, hr]

/-- Witness for C2 (amended): the tolerated decode failure on a concrete
mis-extensioned file. -/
theorem walk_decode_failure_policy_witness :
    (contFn "r/a.zip" ⟨"a.zip", 3, 60, false⟩ (some (.badZip (.lib .notValidZip))) none
      = none) ∧
    (containsNotValidZip (.lib .notValidZip) = true) ∧
    walkFuncRecursive "r/a.zip" ⟨"a.zip", 3, 60, false⟩ (.badZip (.lib .notValidZip))
        contFn none
      = ([⟨"r/a.zip", ⟨"a.zip", 3, 60, false⟩, some (.badZip (.lib .notValidZip)), none⟩],
         none) :=
  ⟨rfl, by decide,
   (walk_decode_failure_policy "r/a.zip" ⟨"a.zip", 3, 60, false⟩ (.lib .notValidZip)
     contFn "r" (.file "b.txt" 2 61 none txtBytes) .nil rfl).1 (by decide)⟩

/-- C8 counterexample: a visitor error `user 5` raised on the archive
entry `a.zip/x.txt` makes `Walk` return the site-6 wrapped error, which is
a different error value than the visitor's own error — refuting "that
error is returned as Walk's final return value". -/
theorem walk_error_wrapped_cex :
    (Walk "a.zip" (.file "a.zip" 9 600 none xzip) errFn).2
      = some (.wrap 6 (.user 5)) ∧
    some (GoErr.wrap 6 (.user 5)) ≠ some (GoErr.user 5) := by
  constructor <;> decide

/-- C8 (amended): when the visitor returns a non-sentinel error at any
nesting depth, the walk stops — the erroring visit is the last visit of
the whole walk — and `Walk` returns a non-nil error that is the visitor's
error under zero or more `fmt.Errorf` wrappings (the identical value for
real non-archive nodes; wrapped with context for archive nodes and
archive entries). -/
theorem visitor_error_aborts_walk (root : String) (n : FSNode) (walkFn : WalkFn)
    (v : Visit) (e : GoErr) (tr : List Visit) (r : Option GoErr)
    (hres : Walk root n walkFn = (tr, r)) (hv : v ∈ tr)
    (hw : walkFn v.path v.info v.reader v.errArg = some e)
    (hz : e ≠ .skipZip) (hd : e ≠ .skipDir) :
    tr.getLast? = some v ∧ r ≠ none ∧ Wraps (r.getD .skipDir) e := by
  rcases hg : goWalk root n walkFn with ⟨tr0, r0⟩
  rw [Walk, hg] at hres
  injection hres with h1 h2
  subst h1
  rcases gw_error_last root n walkFn v e tr0 r0 hg hv hw hz hd with ⟨hl, w, hr, hwr⟩
  subst hr
  have hwsd : w ≠ .skipDir := by
    intro hwd
    rw [hwd] at hwr
    exact hd (wraps_skipDir hwr)
  have : r = some w := by
    rw [← h2]
    simp [hwsd]
  subst this
  exact ⟨hl, by simp, hwr⟩

/-- Witness for C8 (amended): the concrete erroring walk of the
counterexample, with the erroring visit last and the returned error
wrapping the visitor's error. -/
theorem visitor_error_aborts_walk_witness :
    (Walk "a.zip" (.file "a.zip" 9 600 none xzip) errFn
      = ([⟨"a.zip", ⟨"a.zip", 9, 600, false⟩, some xzip, none⟩,
          ⟨"a.zip/x.txt", ⟨"x.txt", 4, 600, false⟩, some txtBytes, none⟩],
         some (.wrap 6 (.user 5)))) ∧
    ((⟨"a.zip/x.txt", ⟨"x.txt", 4, 600, false⟩, some txtBytes, none⟩ : Visit)
      ∈ [(⟨"a.zip", ⟨"a.zip", 9, 600, false⟩, some xzip, none⟩ : Visit),
         ⟨"a.zip/x.txt", ⟨"x.txt", 4, 600, false⟩, some txtBytes, none⟩]) ∧
    (errFn "a.zip/x.txt" ⟨"x.txt", 4, 600, false⟩ (some txtBytes) none
      = some (.user 5)) ∧
    ([(⟨"a.zip", ⟨"a.zip", 9, 600, false⟩, some xzip, none⟩ : Visit),
      ⟨"a.zip/x.txt", ⟨"x.txt", 4, 600, false⟩, some txtBytes, none⟩].getLast?
        = some ⟨"a.zip/x.txt", ⟨"x.txt", 4, 600, false⟩, some txtBytes, none⟩ ∧
      (some (GoErr.wrap 6 (.user 5)) ≠ none) ∧
      Wraps ((some (GoErr.wrap 6 (.user 5))).getD .skipDir) (.user 5)) :=
  ⟨by decide, by decide, by decide,
   visitor_error_aborts_walk "a.zip" (.file "a.zip" 9 600 none xzip) errFn
     ⟨"a.zip/x.txt", ⟨"x.txt", 4, 600, false⟩, some txtBytes, none⟩ (.user 5)
     [⟨"a.zip", ⟨"a.zip", 9, 600, false⟩, some xzip, none⟩,
      ⟨"a.zip/x.txt", ⟨"x.txt", 4, 600, false⟩, some txtBytes, none⟩]
     (some (.wrap 6 (.user 5)))
     (by decide) (by decide) (by decide) (by decide) (by decide)⟩

/-- C7: whenever `Open` succeeds on a path (at any nesting depth), reading
all bytes from the returned handle yields exactly the content the path
addresses — the archive entry's decompressed content, or the real file's
bytes when no marker is present — and closing the handle releases every
resource acquired along the descent chain, in reverse order of
acquisition. -/
theorem Open_reads_entry_and_closes_in_reverse (fs : RealFS) (p : String)
    (h : OHandle) (hres : Open fs p = .ok h) :
    resolveFS fs p = .ok (readAll h) ∧
    (Close h).1 = (h.acquired.map Prod.fst).reverse := by
  constructor
  · cases hs : splitChunks (cleanPath p) with
    | nil => simp [Open, hs] at hres
    | cons c rest =>
      cases rest with
      | nil =>
        simp only [Open, hs] at hres
        cases hf : fs.openFile (cleanPath p) with
        | error e => rw [hf] at hres; cases hres
        | ok d =>
          rw [hf] at hres
          injection hres with h1
          subst h1
          simp [resolveFS, hs, hf, readAll]
      | cons c2 rest2 =>
        simp only [Open, hs] at hres
        cases ho : fs.openReader c with
        | error e => rw [ho] at hres; cases hres
        | ok es =>
          rw [ho] at hres
          have := openChunks_resolve (c2 :: rest2) es
            [(c, fs.closeErrOf c)] h hres
          simp [resolveFS, hs, ho, this, readAll]
  · rw [Close, closeAll_fst, List.map_reverse]

/-- Witness for C7: opening `outer.zip/mid.zip/inner.txt` (nesting depth
three) yields the inner entry's content, and close order is the reverse
of the acquisition chain. -/
theorem Open_reads_entry_and_closes_in_reverse_witness :
    (Open fsOpen "outer.zip/mid.zip/inner.txt"
      = .ok ⟨txtBytes, [("outer.zip", none), ("mid.zip", none)]⟩) ∧
    (resolveFS fsOpen "outer.zip/mid.zip/inner.txt"
        = .ok (readAll ⟨txtBytes, [("outer.zip", none), ("mid.zip", none)]⟩) ∧
      (Close (⟨txtBytes, [("outer.zip", none), ("mid.zip", none)]⟩ : OHandle)).1
        = (([("outer.zip", none), ("mid.zip", none)] :
              List (String × Option GoErr)).map Prod.fst).reverse) :=
  ⟨rfl,
   Open_reads_entry_and_closes_in_reverse fsOpen "outer.zip/mid.zip/inner.txt"
     ⟨txtBytes, [("outer.zip", none), ("mid.zip", none)]⟩ rfl⟩

end Zipwalk
